import Mathlib

/-!
Shallow embedding of `fatiando/inversion/gradient.py` (the `newton` generator
and the `lev_marq` solver advertised by the module docstring) over exact
rational arithmetic.  Vectors are `List ℚ`, matrices are `List (List ℚ)`
(`numpy` row-major arrays).  The dense linear solve `numpy.linalg.solve` is
modelled by exact Cramer elimination: it fails exactly on a singular
coefficient matrix, which is the exact-arithmetic idealization of LAPACK's
zero-pivot `LinAlgError`.
-/

/-- Elementwise difference of two vectors (`numpy` array subtraction,
as in `d.data - d.get_predicted(p)`). -/
def subV (xs ys : List ℚ) : List ℚ := List.zipWith (fun a b => a - b) xs ys

/-- Elementwise sum of two vectors (`numpy` array addition). -/
def addV (xs ys : List ℚ) : List ℚ := List.zipWith (fun a b => a + b) xs ys

/-- Scalar multiple of a vector (`step * dp`, `-1 * gradient`). -/
def smulV (c : ℚ) (xs : List ℚ) : List ℚ := xs.map (fun a => c * a)

/-- Zero vector with the shape of `xs` (`numpy.zeros_like(p)`). -/
def zerosLike (xs : List ℚ) : List ℚ := xs.map (fun _ => 0)

/-- Zero `n × n` matrix (`numpy.zeros((nparams, nparams))`). -/
def zeroMat (n : Nat) : List (List ℚ) := List.replicate n (List.replicate n 0)

/-- Read a row-major list-of-rows as a Mathlib matrix, entries beyond the
stored data reading as `0`. -/
def toMat (n : Nat) (A : List (List ℚ)) : Matrix (Fin n) (Fin n) ℚ :=
  Matrix.of fun i j => ((A.getD i.val []).getD j.val 0)

/-- Read a list as a Mathlib vector, entries beyond the stored data reading
as `0`. -/
def toVec (n : Nat) (b : List ℚ) : Fin n → ℚ := fun i => b.getD i.val 0

/-- Executable determinant of the leading `n × n` block of `A`, by Laplace
expansion along the first row.  Structurally recursive on `n` so that the
kernel can evaluate it on concrete inputs. -/
def detN : Nat → List (List ℚ) → ℚ
  | 0, _ => 1
  | n + 1, A =>
      ((List.range (n + 1)).map (fun j =>
        (-1 : ℚ) ^ j * ((A.getD 0 []).getD j 0) *
          detN n (A.tail.map (fun r => r.eraseIdx j)))).sum

/-- The leading `n × n` block of `A` materialized as exactly `n` rows of
exactly `n` entries. -/
def squareOf (n : Nat) (A : List (List ℚ)) : List (List ℚ) :=
  (List.range n).map (fun i => (List.range n).map (fun j => (A.getD i []).getD j 0))

/-- Replace column `j` of `A` by the vector `b`. -/
def replaceColumn (A : List (List ℚ)) (j : Nat) (b : List ℚ) : List (List ℚ) :=
  (List.range A.length).map (fun i => (A.getD i []).set j (b.getD i 0))

/-- Model of `numpy.linalg.solve(A, b)`: solve the square system `A · x = b`
by Cramer's rule over exact rationals, failing (like LAPACK's
`LinAlgError: Singular matrix`) exactly when the coefficient matrix is
singular. -/
def linsys_solver (A : List (List ℚ)) (b : List ℚ) : Option (List ℚ) :=
  let n := A.length
  let S := squareOf n A
  let d := detN n S
  if d = 0 then none
  else some ((List.range n).map (fun j => detN n (replaceColumn S j b) / d))

/-- Interface of `fatiando.inversion.datamodule.DataModule` as consumed by
`newton`: observed data, forward prediction, scalar misfit from a residual,
and in-place accumulation of gradient and Hessian contributions
(`d.data`, `d.get_predicted(p)`, `d.get_misfit(res)`,
`d.sum_gradient(gradient, p, res)`, `d.sum_hessian(hessian, p)`). -/
structure DataModule where
  data : List ℚ
  get_predicted : List ℚ → List ℚ
  get_misfit : List ℚ → ℚ
  sum_gradient : List ℚ → List ℚ → List ℚ → List ℚ
  sum_hessian : List (List ℚ) → List ℚ → List (List ℚ)

/-- Interface of `fatiando.inversion.regularizer.Regularizer` as consumed by
`newton`: scalar penalty `r.value(p)` and accumulation of gradient and
Hessian contributions (`r.sum_gradient(gradient, p)`,
`r.sum_hessian(hessian, p)`). -/
structure Regularizer where
  value : List ℚ → ℚ
  sum_gradient : List ℚ → List ℚ → List ℚ
  sum_hessian : List (List ℚ) → List ℚ → List (List ℚ)

/-- The dictionary yielded by `newton` each iteration, with the values the
caller sees at the moment of emission.  The source also stores the (never
mutated) data-module list under the key `dms`; it is omitted here.  -/
structure ChangeSet where
  estimate : List ℚ
  misfits : List ℚ
  goals : List ℚ
  deriving DecidableEq

/-- Failure outcomes of a run.  `invalidArgument` models the eager
`ValueError` on an empty data-module list; `singularSystem` models
`numpy.linalg.LinAlgError` escaping from `numpy.linalg.solve`;
`divisionByZero` marks the unguarded division `(goals[-1]-goals[-2])/goals[-2]`
being evaluated with a zero denominator (a `ZeroDivisionError` for Python
scalars, a NaN for numpy scalars - either way not a normal boolean test);
`noDescentDirection` is the damped variant's retry-budget failure. -/
inductive SolveErr where
  | invalidArgument
  | singularSystem
  | divisionByZero
  | noDescentDirection
  deriving DecidableEq

/-- Line `residuals = [d.data - d.get_predicted(p) for d in dms]`. -/
def computeResiduals (dms : List DataModule) (p : List ℚ) : List (List ℚ) :=
  dms.map (fun d => subV d.data (d.get_predicted p))

/-- Line `misfit = sum(d.get_misfit(res) for d, res in izip(dms, residuals))`. -/
def computeMisfit (dms : List DataModule) (residuals : List (List ℚ)) : ℚ :=
  ((dms.zip residuals).map (fun dr => dr.1.get_misfit dr.2)).sum

/-- Line `goal = misfit + sum(r.value(p) for r in regs)`. -/
def computeGoal (misfit : ℚ) (regs : List Regularizer) (p : List ℚ) : ℚ :=
  misfit + (regs.map (fun r => r.value p)).sum

/-- Gradient assembly of one `newton` iteration:
`gradient = numpy.zeros_like(p)`, then
`for d, res in izip(dms, residuals): gradient = d.sum_gradient(gradient, p, res)`,
then `for r in regs: gradient = r.sum_gradient(gradient, p)`. -/
def iterGradient (dms : List DataModule) (regs : List Regularizer)
    (p : List ℚ) (residuals : List (List ℚ)) : List ℚ :=
  List.foldl (fun g r => r.sum_gradient g p)
    (List.foldl (fun g dr => dr.1.sum_gradient g p dr.2) (zerosLike p) (dms.zip residuals)) regs

/-- Hessian assembly of one `newton` iteration:
`hessian = numpy.zeros((nparams, nparams))`, then
`for m in itertools.chain(dms, regs): hessian = m.sum_hessian(hessian, p)`
(data modules first, then regularizers). -/
def iterHessian (dms : List DataModule) (regs : List Regularizer)
    (p : List ℚ) : List (List ℚ) :=
  List.foldl (fun h r => r.sum_hessian h p)
    (List.foldl (fun h d => d.sum_hessian h p) (zeroMat p.length) dms) regs

/-- The parameter update of one `newton` iteration:
`p += step*linsys_solver(hessian, -1*gradient)`, returning `none` when the
linear solve raises on a singular Hessian. -/
def newtonIter (dms : List DataModule) (regs : List Regularizer) (step : ℚ)
    (p : List ℚ) (residuals : List (List ℚ)) : Option (List ℚ) :=
  (linsys_solver (iterHessian dms regs p)
      (smulV (-1) (iterGradient dms regs p residuals))).map
    (fun dp => addV p (smulV step dp))

/-- Line `if abs((goals[-1] - goals[-2])/goals[-2]) <= tol: break`, translated
literally with no guard on the denominator: `none` records that the division
was performed with denominator zero (source intent undefined there),
otherwise the boolean value of the inclusive comparison. -/
def stopCheck (gs : List ℚ) (tol : ℚ) : Option Bool :=
  let g1 := gs.getD (gs.length - 1) 0
  let g0 := gs.getD (gs.length - 2) 0
  if g0 = 0 then none
  else some (decide (|(g1 - g0) / g0| ≤ tol))

/-- The `for i in xrange(maxit)` loop of `newton`, carrying the current
parameter vector, the residuals computed at it, and the running `misfits` and
`goals` histories.  Returns the changesets in emission order (each recording
the values at its moment of emission) paired with the failure outcome, if
any, of the run. -/
def newtonLoop (dms : List DataModule) (regs : List Regularizer) (step tol : ℚ) :
    Nat → List ℚ → List (List ℚ) → List ℚ → List ℚ →
      List ChangeSet × Option SolveErr
  | 0, _, _, _, _ => ([], none)
  | fuel + 1, p, residuals, misfits, goals =>
    match newtonIter dms regs step p residuals with
    | none => ([], some SolveErr.singularSystem)
    | some p2 =>
      let residuals2 := computeResiduals dms p2
      let misfit2 := computeMisfit dms residuals2
      let goal2 := computeGoal misfit2 regs p2
      let misfits2 := misfits ++ [misfit2]
      let goals2 := goals ++ [goal2]
      let cs : ChangeSet := ⟨p2, misfits2, goals2⟩
      match stopCheck goals2 tol with
      | none => ([cs], some SolveErr.divisionByZero)
      | some true => ([cs], none)
      | some false =>
        let rest := newtonLoop dms regs step tol fuel p2 residuals2 misfits2 goals2
        (cs :: rest.1, rest.2)

/-- The `newton` generator of `fatiando/inversion/gradient.py`, run to
completion: the empty-data-module check, the seed residuals/misfit/goal at
`initial`, and the iteration loop.  The first component collects the yielded
changesets in order (each with the values at its emission); the second is the
failure outcome, `none` for normal termination (convergence or exhaustion of
`maxit`). -/
def newton (dms : List DataModule) (initial : List ℚ) (regs : List Regularizer)
    (step : ℚ) (maxit : Nat) (tol : ℚ) : List ChangeSet × Option SolveErr :=
  if dms.length = 0 then ([], some SolveErr.invalidArgument)
  else
    let residuals := computeResiduals dms initial
    let misfit := computeMisfit dms residuals
    let goal := computeGoal misfit regs initial
    newtonLoop dms regs step tol maxit initial residuals [misfit] [goal]

/-- Reference-faithful companion of `newtonLoop`.  In the source the
statement `p = initial` binds the loop variable to the caller's numpy array,
`p += step*linsys_solver(...)` updates that same array in place, and every
yielded dictionary stores the same array object under `'estimate'`.  This
models the run with that single shared buffer made explicit: the first
component is the buffer's contents when the loop stops - which is what the
caller's `initial` array and the `'estimate'` entry of every previously
emitted changeset all contain once the run ends - the second is the number of
changesets emitted (each one holding a reference to the buffer), and the
third is the failure outcome. -/
def newtonAliasLoop (dms : List DataModule) (regs : List Regularizer) (step tol : ℚ) :
    Nat → List ℚ → List (List ℚ) → List ℚ → List ℚ →
      List ℚ × Nat × Option SolveErr
  | 0, p, _, _, _ => (p, 0, none)
  | fuel + 1, p, residuals, misfits, goals =>
    match newtonIter dms regs step p residuals with
    | none => (p, 0, some SolveErr.singularSystem)
    | some p2 =>
      let residuals2 := computeResiduals dms p2
      let misfit2 := computeMisfit dms residuals2
      let goal2 := computeGoal misfit2 regs p2
      let misfits2 := misfits ++ [misfit2]
      let goals2 := goals ++ [goal2]
      match stopCheck goals2 tol with
      | none => (p2, 1, some SolveErr.divisionByZero)
      | some true => (p2, 1, none)
      | some false =>
        let rest := newtonAliasLoop dms regs step tol fuel p2 residuals2 misfits2 goals2
        (rest.1, rest.2.1 + 1, rest.2.2)

/-- Reference-faithful companion of `newton` (see `newtonAliasLoop`): the
parameter buffer's final contents, the number of emitted changesets, and the
failure outcome. -/
def newtonAlias (dms : List DataModule) (initial : List ℚ) (regs : List Regularizer)
    (step : ℚ) (maxit : Nat) (tol : ℚ) : List ℚ × Nat × Option SolveErr :=
  if dms.length = 0 then (initial, 0, some SolveErr.invalidArgument)
  else
    let residuals := computeResiduals dms initial
    let misfit := computeMisfit dms residuals
    let goal := computeGoal misfit regs initial
    newtonAliasLoop dms regs step tol maxit initial residuals [misfit] [goal]

/-- Modelled from the spec: the module docstring advertises the solver
`fatiando.inversion.gradient.lev_marq`, but its implementation is not among
the provided sources.  Per the spec the Hessian is regularized before solving
by adding the damping `lam * diag(Hessian)` to it: diagonal entries become
`H[i][i] + lam * H[i][i]`, off-diagonal entries are unchanged. -/
def dampedHessian (H : List (List ℚ)) (lam : ℚ) : List (List ℚ) :=
  (List.range H.length).map (fun i =>
    (List.range ((H.getD i []).length)).map (fun j =>
      if j = i then (H.getD i []).getD j 0 + lam * (H.getD i []).getD j 0
      else (H.getD i []).getD j 0))

/-- Modelled from the spec: goal evaluation `misfit + penalties` at a trial
parameter vector, used by the damped variant to accept or reject a step. -/
def lmGoal (dms : List DataModule) (regs : List Regularizer) (p : List ℚ) : ℚ :=
  computeGoal (computeMisfit dms (computeResiduals dms p)) regs p

/-- Modelled from the spec: one damped trial step at damping `lam` - solve
`(Hessian + lam * diag(Hessian)) dp = -gradient` and update `p + step * dp`;
`none` when the damped system is singular. -/
def lmAttempt (step : ℚ) (H : List (List ℚ)) (g p : List ℚ) (lam : ℚ) :
    Option (List ℚ) :=
  (linsys_solver (dampedHessian H lam) (smulV (-1) g)).map
    (fun dp => addV p (smulV step dp))

/-- Modelled from the spec: a trial step is accepted exactly when it reduces
the goal function. -/
def lmAccept (dms : List DataModule) (regs : List Regularizer) (goal : ℚ)
    (p2 : List ℚ) : Bool :=
  decide (lmGoal dms regs p2 < goal)

/-- Modelled from the spec: the damped variant's inner retry loop.  A
rejected step (goal not reduced) is retried with the damping increased by the
factor `inc`; an accepted step returns the new parameter vector with the
damping decreased by the factor `dec`; exhausting the retry budget fails
with `NoDescentDirection`. -/
def lmRetry (dms : List DataModule) (regs : List Regularizer) (step : ℚ)
    (H : List (List ℚ)) (g p : List ℚ) (goal lam inc dec : ℚ) :
    Nat → Except SolveErr (List ℚ × ℚ)
  | 0 => Except.error SolveErr.noDescentDirection
  | fuel + 1 =>
    match lmAttempt step H g p lam with
    | none => Except.error SolveErr.singularSystem
    | some p2 =>
      if lmAccept dms regs goal p2 then Except.ok (p2, lam * dec)
      else lmRetry dms regs step H g p goal (lam * inc) inc dec fuel

/-- Whether the damped trial at the `k`-th retry level (damping
`lam * inc ^ k`) solves and is rejected. -/
def lmRejectsAt (dms : List DataModule) (regs : List Regularizer) (step : ℚ)
    (H : List (List ℚ)) (g p : List ℚ) (goal lam inc : ℚ) (k : Nat) : Bool :=
  match lmAttempt step H g p (lam * inc ^ k) with
  | none => false
  | some p2 => ! lmAccept dms regs goal p2

/-- Modelled from the spec: the `lev_marq` iteration loop - the same skeleton
as `newtonLoop` with the per-iteration solve replaced by the damped retry
loop `lmRetry`, the adapted damping carried to the next iteration. -/
def levMarqLoop (dms : List DataModule) (regs : List Regularizer)
    (step tol inc dec : ℚ) (retries : Nat) :
    Nat → List ℚ → ℚ → List ℚ → List ℚ → List ChangeSet × Option SolveErr
  | 0, _, _, _, _ => ([], none)
  | fuel + 1, p, lam, misfits, goals =>
    match lmRetry dms regs step (iterHessian dms regs p)
        (iterGradient dms regs p (computeResiduals dms p)) p
        (lmGoal dms regs p) lam inc dec retries with
    | Except.error e => ([], some e)
    | Except.ok (p2, lam2) =>
      let misfit2 := computeMisfit dms (computeResiduals dms p2)
      let goal2 := computeGoal misfit2 regs p2
      let misfits2 := misfits ++ [misfit2]
      let goals2 := goals ++ [goal2]
      let cs : ChangeSet := ⟨p2, misfits2, goals2⟩
      match stopCheck goals2 tol with
      | none => ([cs], some SolveErr.divisionByZero)
      | some true => ([cs], none)
      | some false =>
        let rest := levMarqLoop dms regs step tol inc dec retries fuel p2 lam2 misfits2 goals2
        (cs :: rest.1, rest.2)

/-- Modelled from the spec: the `lev_marq` solver advertised by the module
docstring - same shape as `newton`, with an initial damping factor `lam0`,
damping adjustment factors `inc` and `dec`, and an internal retry budget. -/
def lev_marq (dms : List DataModule) (initial : List ℚ) (regs : List Regularizer)
    (step : ℚ) (maxit : Nat) (tol lam0 inc dec : ℚ) (retries : Nat) :
    List ChangeSet × Option SolveErr :=
  if dms.length = 0 then ([], some SolveErr.invalidArgument)
  else
    let residuals := computeResiduals dms initial
    let misfit := computeMisfit dms residuals
    let goal := computeGoal misfit regs initial
    levMarqLoop dms regs step tol inc dec retries maxit initial lam0 [misfit] [goal]

/-- Concrete one-parameter test problem: fit observation `y = 5` with forward
model `predict(p) = p[0]` and squared-residual misfit.  Gradient contribution
`-2*res`, Gauss-Newton Hessian contribution `2`, accumulated additively. -/
def dmFit5 : DataModule where
  data := [5]
  get_predicted := fun p => [p.getD 0 0]
  get_misfit := fun res => (res.getD 0 0) ^ 2
  sum_gradient := fun g _ res => addV g [(-2) * res.getD 0 0]
  sum_hessian := fun h _ => [[(h.getD 0 []).getD 0 0 + 2]]

/-- Concrete data module whose Hessian contribution leaves the accumulator
unchanged, so the assembled Hessian stays the zero matrix and the linear
solve meets a singular system on the first iteration. -/
def dmSing : DataModule where
  data := [1]
  get_predicted := fun p => [p.getD 0 0]
  get_misfit := fun res => res.getD 0 0
  sum_gradient := fun g _ _ => g
  sum_hessian := fun h _ => h

/-- Concrete data module with constant gradient contribution `1/2` and unit
Hessian contribution, arranged so that from `p = [0]`, `goals = [2]` one
iteration changes the goal by exactly the fraction `1/4`. -/
def dmTol : DataModule where
  data := [2]
  get_predicted := fun p => [p.getD 0 0]
  get_misfit := fun res => res.getD 0 0
  sum_gradient := fun _ _ _ => [1 / 2]
  sum_hessian := fun _ _ => [[1]]

/-- Goal landscape for exercising the damped variant's retry loop: the value
is `30` at the first damped trial point `5/2` (rejection), `10` at the second
trial point `5/4` (acceptance), `25` elsewhere. -/
def wfun (x : ℚ) : ℚ :=
  if x = 5 / 2 then 30 else if x = 5 / 4 then 10 else 25

/-- Concrete data module whose misfit at `p` is exactly `wfun p[0]`. -/
def dmW : DataModule where
  data := [0]
  get_predicted := fun p => [-(wfun (p.getD 0 0))]
  get_misfit := fun res => res.getD 0 0
  sum_gradient := fun g _ _ => g
  sum_hessian := fun h _ => h
/-- Concrete data module like `dmFit5` but whose Hessian contribution
degenerates to zero once the parameter reaches `5`, so the second iteration's
linear solve meets a singular system after one changeset was emitted. -/
def dmSingLater : DataModule where
  data := [5]
  get_predicted := fun p => [p.getD 0 0]
  get_misfit := fun res => (res.getD 0 0) ^ 2
  sum_gradient := fun g _ res => addV g [(-2) * res.getD 0 0]
  sum_hessian := fun _ p => [[if p.getD 0 0 = 0 then 2 else 0]]

theorem sum_map_range (n : Nat) (g : Nat → ℚ) :
    ((List.range n).map g).sum = ∑ i ∈ Finset.range n, g i := by
  induction n with
  | zero => simp
  | succ n ih =>
      rw [List.range_succ, List.map_append, List.sum_append, Finset.sum_range_succ, ih]
      simp

theorem getD_map_range (n i : Nat) (g : Nat → ℚ) (h : i < n) :
    ((List.range n).map g).getD i 0 = g i := by
  simp [List.getD_eq_getElem?_getD, List.getElem?_map, List.getElem?_range h]

theorem getD_map_range_list (n i : Nat) (g : Nat → List ℚ) (h : i < n) :
    ((List.range n).map g).getD i [] = g i := by
  simp [List.getD_eq_getElem?_getD, List.getElem?_map, List.getElem?_range h]

theorem toMat_minor (n : Nat) (A : List (List ℚ)) (j : Fin (n + 1)) :
    (toMat (n + 1) A).submatrix Fin.succ j.succAbove
      = toMat n (A.tail.map (fun r => r.eraseIdx j.val)) := by
  ext i k
  simp only [toMat, Matrix.submatrix_apply, Matrix.of_apply]
  have htail : (A.tail.map (fun r => r.eraseIdx j.val)).getD i.val []
      = (A.tail.getD i.val []).eraseIdx j.val := by
    simp only [List.getD_eq_getElem?_getD, List.getElem?_map]
    cases A.tail[i.val]? <;> simp
  rw [htail]
  have hdrop : A.tail.getD i.val [] = A.getD (i.val + 1) [] := by
    simp only [List.getD_eq_getElem?_getD, ← List.drop_one, List.getElem?_drop]
    norm_num [Nat.add_comm]
  rw [hdrop]
  have hsucc : (Fin.succ i).val = i.val + 1 := rfl
  rw [hsucc]
  have herase : ((A.getD (i.val + 1) []).eraseIdx j.val).getD k.val 0
      = (A.getD (i.val + 1) []).getD (if k.val < j.val then k.val else k.val + 1) 0 := by
    simp only [List.getD_eq_getElem?_getD, List.getElem?_eraseIdx]
    split <;> rfl
  rw [herase]
  congr 1
  unfold Fin.succAbove
  split
  next h =>
    have : k.val < j.val := h
    simp [this]
  next h =>
    have : ¬ k.val < j.val := fun hc => h (by exact hc)
    simp [this, Fin.val_succ]

theorem detN_eq (n : Nat) (A : List (List ℚ)) : detN n A = Matrix.det (toMat n A) := by
  induction n generalizing A with
  | zero =>
      rw [Matrix.det_isEmpty]
      rfl
  | succ n ih =>
      have hcongr : ∑ j : Fin (n + 1),
          (-1 : ℚ) ^ (j : ℕ) * toMat (n + 1) A 0 j *
            Matrix.det ((toMat (n + 1) A).submatrix Fin.succ j.succAbove)
          = ∑ j : Fin (n + 1),
            (fun k => (-1 : ℚ) ^ k * ((A.getD 0 []).getD k 0) *
              detN n (A.tail.map (fun r => r.eraseIdx k))) (j : ℕ) :=
        Finset.sum_congr rfl (fun j _ => by rw [toMat_minor, ← ih]; rfl)
      calc detN (n + 1) A
          = ∑ j ∈ Finset.range (n + 1),
            (-1 : ℚ) ^ j * ((A.getD 0 []).getD j 0) *
              detN n (A.tail.map (fun r => r.eraseIdx j)) := by
            rw [detN]; exact sum_map_range (n + 1) _
        _ = ∑ j : Fin (n + 1),
            (fun k => (-1 : ℚ) ^ k * ((A.getD 0 []).getD k 0) *
              detN n (A.tail.map (fun r => r.eraseIdx k))) (j : ℕ) :=
            (Fin.sum_univ_eq_sum_range _ (n + 1)).symm
        _ = Matrix.det (toMat (n + 1) A) := by
            rw [← hcongr, Matrix.det_succ_row_zero]

theorem toMat_squareOf (n : Nat) (A : List (List ℚ)) :
    toMat n (squareOf n A) = toMat n A := by
  ext i k
  simp only [toMat, Matrix.of_apply, squareOf]
  rw [getD_map_range_list n i.val _ i.isLt, getD_map_range n k.val _ k.isLt]

theorem squareOf_row_length (n : Nat) (A : List (List ℚ)) (i : Nat) (h : i < n) :
    ((squareOf n A).getD i []).length = n := by
  rw [squareOf, getD_map_range_list n i _ h]
  simp

theorem squareOf_length (n : Nat) (A : List (List ℚ)) : (squareOf n A).length = n := by
  simp [squareOf]

theorem getD_set (l : List ℚ) (j k : Nat) (v : ℚ) (hj : j < l.length) :
    (l.set j v).getD k 0 = if k = j then v else l.getD k 0 := by
  simp only [List.getD_eq_getElem?_getD, List.getElem?_set]
  by_cases h : j = k
  · subst h
    simp [hj]
  · have : ¬ k = j := fun hc => h hc.symm
    simp [h, this]

theorem toMat_replaceColumn_eq (n : Nat) (S : List (List ℚ)) (b : List ℚ) (j : Fin n)
    (hlen : S.length = n) (hrow : ∀ i, i < n → (S.getD i []).length = n) :
    toMat n (replaceColumn S j.val b) = (toMat n S).updateColumn j (toVec n b) := by
  ext i k
  simp only [toMat, Matrix.of_apply, Matrix.updateColumn_apply, replaceColumn, hlen]
  rw [getD_map_range_list n i.val _ i.isLt]
  rw [getD_set _ _ _ _ (by rw [hrow i.val i.isLt]; exact j.isLt)]
  by_cases hkj : k = j
  · have : k.val = j.val := by rw [hkj]
    simp [hkj, this, toVec]
  · have : k.val ≠ j.val := fun hc => hkj (Fin.ext hc)
    simp [hkj, this]

theorem linsys_solver_mulVec (A : List (List ℚ)) (b x : List ℚ)
    (h : linsys_solver A b = some x) :
    Matrix.det (toMat A.length A) ≠ 0 ∧
      (toMat A.length A).mulVec (toVec A.length x) = toVec A.length b := by
  rw [linsys_solver] at h
  by_cases hd : detN A.length (squareOf A.length A) = 0
  · simp [hd] at h
  · simp only [hd, if_neg, if_false] at h
    have hdet : Matrix.det (toMat A.length A) ≠ 0 := by
      rw [← toMat_squareOf A.length A, ← detN_eq]
      exact hd
    refine ⟨hdet, ?_⟩
    have hx : toVec A.length x
        = (Matrix.det (toMat A.length A))⁻¹ •
            Matrix.cramer (toMat A.length A) (toVec A.length b) := by
      funext j
      have hxeq : x = (List.range A.length).map (fun k =>
          detN A.length (replaceColumn (squareOf A.length A) k b) /
            detN A.length (squareOf A.length A)) := (Option.some.inj h).symm
      have hxj : x.getD j.val 0
          = detN A.length (replaceColumn (squareOf A.length A) j.val b) /
              detN A.length (squareOf A.length A) := by
        rw [hxeq]
        exact getD_map_range A.length j.val _ j.isLt
      have hcr : detN A.length (replaceColumn (squareOf A.length A) j.val b)
          = Matrix.cramer (toMat A.length A) (toVec A.length b) j := by
        rw [detN_eq, toMat_replaceColumn_eq A.length (squareOf A.length A) b j
              (squareOf_length A.length A) (fun i hi => squareOf_row_length A.length A i hi),
            toMat_squareOf, Matrix.cramer_apply]
      have hdn : detN A.length (squareOf A.length A) = Matrix.det (toMat A.length A) := by
        rw [detN_eq, toMat_squareOf]
      simp only [toVec] at hxj ⊢
      rw [hxj, hcr, hdn, Pi.smul_apply, smul_eq_mul, div_eq_inv_mul]
    rw [hx, Matrix.mulVec_smul, Matrix.mulVec_cramer, smul_smul,
        inv_mul_cancel₀ hdet, one_smul]


theorem newtonLoop_fail (dms : List DataModule) (regs : List Regularizer)
    (step tol : ℚ) (fuel : Nat) (p : List ℚ) (residuals : List (List ℚ))
    (misfits goals : List ℚ)
    (h : newtonIter dms regs step p residuals = none) :
    newtonLoop dms regs step tol (fuel + 1) p residuals misfits goals
      = ([], some SolveErr.singularSystem) := by
  simp only [newtonLoop, h]

theorem newtonLoop_divz (dms : List DataModule) (regs : List Regularizer)
    (step tol : ℚ) (fuel : Nat) (p : List ℚ) (residuals : List (List ℚ))
    (misfits goals : List ℚ) (p2 : List ℚ)
    (h : newtonIter dms regs step p residuals = some p2)
    (hstop : stopCheck
        (goals ++ [computeGoal (computeMisfit dms (computeResiduals dms p2)) regs p2]) tol
      = none) :
    newtonLoop dms regs step tol (fuel + 1) p residuals misfits goals
      = ([⟨p2, misfits ++ [computeMisfit dms (computeResiduals dms p2)],
            goals ++ [computeGoal (computeMisfit dms (computeResiduals dms p2)) regs p2]⟩],
         some SolveErr.divisionByZero) := by
  simp only [newtonLoop, h, hstop]

theorem newtonLoop_last (dms : List DataModule) (regs : List Regularizer)
    (step tol : ℚ) (fuel : Nat) (p : List ℚ) (residuals : List (List ℚ))
    (misfits goals : List ℚ) (p2 : List ℚ)
    (h : newtonIter dms regs step p residuals = some p2)
    (hstop : stopCheck
        (goals ++ [computeGoal (computeMisfit dms (computeResiduals dms p2)) regs p2]) tol
      = some true) :
    newtonLoop dms regs step tol (fuel + 1) p residuals misfits goals
      = ([⟨p2, misfits ++ [computeMisfit dms (computeResiduals dms p2)],
            goals ++ [computeGoal (computeMisfit dms (computeResiduals dms p2)) regs p2]⟩],
         none) := by
  simp only [newtonLoop, h, hstop]

theorem newtonLoop_cont (dms : List DataModule) (regs : List Regularizer)
    (step tol : ℚ) (fuel : Nat) (p : List ℚ) (residuals : List (List ℚ))
    (misfits goals : List ℚ) (p2 : List ℚ)
    (h : newtonIter dms regs step p residuals = some p2)
    (hstop : stopCheck
        (goals ++ [computeGoal (computeMisfit dms (computeResiduals dms p2)) regs p2]) tol
      = some false) :
    newtonLoop dms regs step tol (fuel + 1) p residuals misfits goals
      = (⟨p2, misfits ++ [computeMisfit dms (computeResiduals dms p2)],
            goals ++ [computeGoal (computeMisfit dms (computeResiduals dms p2)) regs p2]⟩ ::
          (newtonLoop dms regs step tol fuel p2 (computeResiduals dms p2)
            (misfits ++ [computeMisfit dms (computeResiduals dms p2)])
            (goals ++ [computeGoal (computeMisfit dms (computeResiduals dms p2)) regs p2])).1,
         (newtonLoop dms regs step tol fuel p2 (computeResiduals dms p2)
            (misfits ++ [computeMisfit dms (computeResiduals dms p2)])
            (goals ++ [computeGoal (computeMisfit dms (computeResiduals dms p2)) regs p2])).2) := by
  simp only [newtonLoop, h, hstop]

theorem stopCheck_append (goals : List ℚ) (g2 tol : ℚ) (hne : goals ≠ []) :
    stopCheck (goals ++ [g2]) tol
      = if goals.getD (goals.length - 1) 0 = 0 then none
        else some (decide
          (|g2 - goals.getD (goals.length - 1) 0| / |goals.getD (goals.length - 1) 0| ≤ tol)) := by
  have hlen : (goals ++ [g2]).length = goals.length + 1 := by simp
  have hpos : 0 < goals.length := List.length_pos.mpr hne
  have hg1 : (goals ++ [g2]).getD ((goals ++ [g2]).length - 1) 0 = g2 := by
    rw [hlen]
    simp only [Nat.add_sub_cancel, List.getD_eq_getElem?_getD, List.getElem?_concat_length]
    rfl
  have hg0 : (goals ++ [g2]).getD ((goals ++ [g2]).length - 2) 0
      = goals.getD (goals.length - 1) 0 := by
    rw [hlen]
    have h2 : goals.length + 1 - 2 = goals.length - 1 := by omega
    rw [h2]
    simp only [List.getD_eq_getElem?_getD]
    rw [List.getElem?_append, if_pos (by omega : goals.length - 1 < goals.length)]
  simp only [stopCheck]
  rw [hg1, hg0]
  by_cases h0 : goals.getD (goals.length - 1) 0 = 0
  · rw [if_pos h0, if_pos h0]
  · rw [if_neg h0, if_neg h0, abs_div]

theorem computeGoal_nil (misfit : ℚ) (p : List ℚ) : computeGoal misfit [] p = misfit := by
  simp [computeGoal]

theorem newtonLoop_length_le (dms : List DataModule) (regs : List Regularizer)
    (step tol : ℚ) :
    ∀ (fuel : Nat) (p : List ℚ) (residuals : List (List ℚ)) (misfits goals : List ℚ),
      ((newtonLoop dms regs step tol fuel p residuals misfits goals).1).length ≤ fuel := by
  intro fuel
  induction fuel with
  | zero =>
      intro p r m g
      simp [newtonLoop]
  | succ fuel ih =>
      intro p r m g
      cases hiter : newtonIter dms regs step p r with
      | none =>
          rw [newtonLoop_fail dms regs step tol fuel p r m g hiter]
          simp
      | some p2 =>
          cases hstop : stopCheck
              (g ++ [computeGoal (computeMisfit dms (computeResiduals dms p2)) regs p2]) tol with
          | none =>
              rw [newtonLoop_divz dms regs step tol fuel p r m g p2 hiter hstop]
              simp
          | some b =>
              cases b with
              | true =>
                  rw [newtonLoop_last dms regs step tol fuel p r m g p2 hiter hstop]
                  simp
              | false =>
                  rw [newtonLoop_cont dms regs step tol fuel p r m g p2 hiter hstop]
                  simpa using Nat.succ_le_succ (ih p2 _ _ _)

theorem newtonLoop_err_cases (dms : List DataModule) (regs : List Regularizer)
    (step tol : ℚ) :
    ∀ (fuel : Nat) (p : List ℚ) (residuals : List (List ℚ)) (misfits goals : List ℚ),
      (newtonLoop dms regs step tol fuel p residuals misfits goals).2 = none
      ∨ (newtonLoop dms regs step tol fuel p residuals misfits goals).2
          = some SolveErr.singularSystem
      ∨ (newtonLoop dms regs step tol fuel p residuals misfits goals).2
          = some SolveErr.divisionByZero := by
  intro fuel
  induction fuel with
  | zero =>
      intro p r m g
      left
      simp [newtonLoop]
  | succ fuel ih =>
      intro p r m g
      cases hiter : newtonIter dms regs step p r with
      | none =>
          rw [newtonLoop_fail dms regs step tol fuel p r m g hiter]
          right; left; rfl
      | some p2 =>
          cases hstop : stopCheck
              (g ++ [computeGoal (computeMisfit dms (computeResiduals dms p2)) regs p2]) tol with
          | none =>
              rw [newtonLoop_divz dms regs step tol fuel p r m g p2 hiter hstop]
              right; right; rfl
          | some b =>
              cases b with
              | true =>
                  rw [newtonLoop_last dms regs step tol fuel p r m g p2 hiter hstop]
                  left; rfl
              | false =>
                  rw [newtonLoop_cont dms regs step tol fuel p r m g p2 hiter hstop]
                  exact ih p2 _ _ _

theorem newtonLoop_emits (dms : List DataModule) (regs : List Regularizer)
    (step tol : ℚ) (fuel : Nat) (p : List ℚ) (residuals : List (List ℚ))
    (misfits goals : List ℚ)
    (h : newtonIter dms regs step p residuals ≠ none) :
    1 ≤ ((newtonLoop dms regs step tol (fuel + 1) p residuals misfits goals).1).length := by
  cases hiter : newtonIter dms regs step p residuals with
  | none => exact absurd hiter h
  | some p2 =>
      cases hstop : stopCheck
          (goals ++ [computeGoal (computeMisfit dms (computeResiduals dms p2)) regs p2]) tol with
      | none =>
          rw [newtonLoop_divz dms regs step tol fuel p residuals misfits goals p2 hiter hstop]
          simp
      | some b =>
          cases b with
          | true =>
              rw [newtonLoop_last dms regs step tol fuel p residuals misfits goals p2 hiter hstop]
              simp
          | false =>
              rw [newtonLoop_cont dms regs step tol fuel p residuals misfits goals p2 hiter hstop]
              simp

theorem newtonLoop_history (dms : List DataModule) (regs : List Regularizer)
    (step tol : ℚ) :
    ∀ (fuel : Nat) (p : List ℚ) (residuals : List (List ℚ)) (misfits goals : List ℚ)
      (k : Nat),
      k < ((newtonLoop dms regs step tol fuel p residuals misfits goals).1).length →
      (((newtonLoop dms regs step tol fuel p residuals misfits goals).1).getD k
          ⟨[], [], []⟩).misfits.length = misfits.length + k + 1
      ∧ (((newtonLoop dms regs step tol fuel p residuals misfits goals).1).getD k
          ⟨[], [], []⟩).goals.length = goals.length + k + 1
      ∧ (((newtonLoop dms regs step tol fuel p residuals misfits goals).1).getD k
          ⟨[], [], []⟩).misfits.take misfits.length = misfits
      ∧ (((newtonLoop dms regs step tol fuel p residuals misfits goals).1).getD k
          ⟨[], [], []⟩).goals.take goals.length = goals := by
  intro fuel
  induction fuel with
  | zero =>
      intro p r m g k hk
      simp [newtonLoop] at hk
  | succ fuel ih =>
      intro p r m g k hk
      cases hiter : newtonIter dms regs step p r with
      | none =>
          rw [newtonLoop_fail dms regs step tol fuel p r m g hiter] at hk
          simp at hk
      | some p2 =>
          cases hstop : stopCheck
              (g ++ [computeGoal (computeMisfit dms (computeResiduals dms p2)) regs p2]) tol with
          | none =>
              rw [newtonLoop_divz dms regs step tol fuel p r m g p2 hiter hstop] at hk ⊢
              simp at hk
              subst hk
              refine ⟨by simp, by simp, ?_, ?_⟩
              · simp [List.take_append]
              · simp [List.take_append]
          | some b =>
              cases b with
              | true =>
                  rw [newtonLoop_last dms regs step tol fuel p r m g p2 hiter hstop] at hk ⊢
                  simp at hk
                  subst hk
                  refine ⟨by simp, by simp, ?_, ?_⟩
                  · simp [List.take_append]
                  · simp [List.take_append]
              | false =>
                  rw [newtonLoop_cont dms regs step tol fuel p r m g p2 hiter hstop] at hk ⊢
                  cases k with
                  | zero =>
                      refine ⟨by simp, by simp, ?_, ?_⟩
                      · simp [List.take_append]
                      · simp [List.take_append]
                  | succ k =>
                      simp only [List.length_cons, Nat.succ_lt_succ_iff] at hk
                      have h4 := ih p2 (computeResiduals dms p2)
                        (m ++ [computeMisfit dms (computeResiduals dms p2)])
                        (g ++ [computeGoal (computeMisfit dms (computeResiduals dms p2)) regs p2])
                        k hk
                      simp only [List.getD_cons_succ]
                      refine ⟨?_, ?_, ?_, ?_⟩
                      · rw [h4.1]; simp; omega
                      · rw [h4.2.1]; simp; omega
                      · have hmm := h4.2.2.1
                        have : m = (m ++ [computeMisfit dms (computeResiduals dms p2)]).take m.length := by
                          simp [List.take_append]
                        calc (((newtonLoop dms regs step tol fuel p2 (computeResiduals dms p2)
                              (m ++ [computeMisfit dms (computeResiduals dms p2)])
                              (g ++ [computeGoal (computeMisfit dms (computeResiduals dms p2)) regs p2])).1).getD k
                              ⟨[], [], []⟩).misfits.take m.length
                            = ((((newtonLoop dms regs step tol fuel p2 (computeResiduals dms p2)
                              (m ++ [computeMisfit dms (computeResiduals dms p2)])
                              (g ++ [computeGoal (computeMisfit dms (computeResiduals dms p2)) regs p2])).1).getD k
                              ⟨[], [], []⟩).misfits.take
                                (m ++ [computeMisfit dms (computeResiduals dms p2)]).length).take m.length := by
                              rw [List.take_take]
                              congr 1
                              simp
                          _ = m := by rw [hmm]; simp [List.take_append]
                      · have hgg := h4.2.2.2
                        calc (((newtonLoop dms regs step tol fuel p2 (computeResiduals dms p2)
                              (m ++ [computeMisfit dms (computeResiduals dms p2)])
                              (g ++ [computeGoal (computeMisfit dms (computeResiduals dms p2)) regs p2])).1).getD k
                              ⟨[], [], []⟩).goals.take g.length
                            = ((((newtonLoop dms regs step tol fuel p2 (computeResiduals dms p2)
                              (m ++ [computeMisfit dms (computeResiduals dms p2)])
                              (g ++ [computeGoal (computeMisfit dms (computeResiduals dms p2)) regs p2])).1).getD k
                              ⟨[], [], []⟩).goals.take
                                (g ++ [computeGoal (computeMisfit dms (computeResiduals dms p2)) regs p2]).length).take g.length := by
                              rw [List.take_take]
                              congr 1
                              simp
                          _ = g := by rw [hgg]; simp [List.take_append]

theorem newtonLoop_history_chain (dms : List DataModule) (regs : List Regularizer)
    (step tol : ℚ) :
    ∀ (fuel : Nat) (p : List ℚ) (residuals : List (List ℚ)) (misfits goals : List ℚ)
      (k : Nat),
      k + 1 < ((newtonLoop dms regs step tol fuel p residuals misfits goals).1).length →
      (((newtonLoop dms regs step tol fuel p residuals misfits goals).1).getD (k + 1)
          ⟨[], [], []⟩).misfits.take
        ((((newtonLoop dms regs step tol fuel p residuals misfits goals).1).getD k
          ⟨[], [], []⟩).misfits.length)
        = (((newtonLoop dms regs step tol fuel p residuals misfits goals).1).getD k
          ⟨[], [], []⟩).misfits
      ∧ (((newtonLoop dms regs step tol fuel p residuals misfits goals).1).getD (k + 1)
          ⟨[], [], []⟩).goals.take
        ((((newtonLoop dms regs step tol fuel p residuals misfits goals).1).getD k
          ⟨[], [], []⟩).goals.length)
        = (((newtonLoop dms regs step tol fuel p residuals misfits goals).1).getD k
          ⟨[], [], []⟩).goals := by
  intro fuel
  induction fuel with
  | zero =>
      intro p r m g k hk
      simp [newtonLoop] at hk
  | succ fuel ih =>
      intro p r m g k hk
      cases hiter : newtonIter dms regs step p r with
      | none =>
          rw [newtonLoop_fail dms regs step tol fuel p r m g hiter] at hk
          simp at hk
      | some p2 =>
          cases hstop : stopCheck
              (g ++ [computeGoal (computeMisfit dms (computeResiduals dms p2)) regs p2]) tol with
          | none =>
              rw [newtonLoop_divz dms regs step tol fuel p r m g p2 hiter hstop] at hk
              simp at hk
          | some b =>
              cases b with
              | true =>
                  rw [newtonLoop_last dms regs step tol fuel p r m g p2 hiter hstop] at hk
                  simp at hk
              | false =>
                  rw [newtonLoop_cont dms regs step tol fuel p r m g p2 hiter hstop] at hk ⊢
                  cases k with
                  | zero =>
                      simp only [List.length_cons, Nat.succ_lt_succ_iff] at hk
                      simp only [List.getD_cons_succ, List.getD_cons_zero]
                      have h4 := newtonLoop_history dms regs step tol fuel p2
                        (computeResiduals dms p2)
                        (m ++ [computeMisfit dms (computeResiduals dms p2)])
                        (g ++ [computeGoal (computeMisfit dms (computeResiduals dms p2)) regs p2])
                        0 hk
                      exact ⟨h4.2.2.1, h4.2.2.2⟩
                  | succ k =>
                      simp only [List.length_cons, Nat.succ_lt_succ_iff] at hk
                      simp only [List.getD_cons_succ]
                      exact ih p2 (computeResiduals dms p2)
                        (m ++ [computeMisfit dms (computeResiduals dms p2)])
                        (g ++ [computeGoal (computeMisfit dms (computeResiduals dms p2)) regs p2])
                        k hk

theorem newtonAliasLoop_spec (dms : List DataModule) (regs : List Regularizer)
    (step tol : ℚ) :
    ∀ (fuel : Nat) (p : List ℚ) (residuals : List (List ℚ)) (misfits goals : List ℚ),
      newtonAliasLoop dms regs step tol fuel p residuals misfits goals
        = ((((newtonLoop dms regs step tol fuel p residuals misfits goals).1).map
              ChangeSet.estimate).getLastD p,
           ((newtonLoop dms regs step tol fuel p residuals misfits goals).1).length,
           (newtonLoop dms regs step tol fuel p residuals misfits goals).2) := by
  intro fuel
  induction fuel with
  | zero =>
      intro p r m g
      simp [newtonLoop, newtonAliasLoop]
  | succ fuel ih =>
      intro p r m g
      cases hiter : newtonIter dms regs step p r with
      | none =>
          rw [newtonLoop_fail dms regs step tol fuel p r m g hiter]
          simp only [newtonAliasLoop, hiter]
          simp
      | some p2 =>
          cases hstop : stopCheck
              (g ++ [computeGoal (computeMisfit dms (computeResiduals dms p2)) regs p2]) tol with
          | none =>
              rw [newtonLoop_divz dms regs step tol fuel p r m g p2 hiter hstop]
              simp only [newtonAliasLoop, hiter, hstop]
              simp
          | some b =>
              cases b with
              | true =>
                  rw [newtonLoop_last dms regs step tol fuel p r m g p2 hiter hstop]
                  simp only [newtonAliasLoop, hiter, hstop]
                  simp
              | false =>
                  rw [newtonLoop_cont dms regs step tol fuel p r m g p2 hiter hstop]
                  simp only [newtonAliasLoop, hiter, hstop]
                  rw [ih p2 (computeResiduals dms p2)
                    (m ++ [computeMisfit dms (computeResiduals dms p2)])
                    (g ++ [computeGoal (computeMisfit dms (computeResiduals dms p2)) regs p2])]
                  simp only [List.map_cons, List.length_cons, List.getLastD_cons]

theorem newtonLoop_no_regs (dms : List DataModule) (step tol : ℚ) :
    ∀ (fuel : Nat) (p : List ℚ) (residuals : List (List ℚ)) (misfits goals : List ℚ),
      goals = misfits →
      ∀ cs ∈ (newtonLoop dms [] step tol fuel p residuals misfits goals).1,
        cs.goals = cs.misfits := by
  intro fuel
  induction fuel with
  | zero =>
      intro p r m g hgm cs hcs
      simp [newtonLoop] at hcs
  | succ fuel ih =>
      intro p r m g hgm cs hcs
      cases hiter : newtonIter dms [] step p r with
      | none =>
          rw [newtonLoop_fail dms [] step tol fuel p r m g hiter] at hcs
          simp at hcs
      | some p2 =>
          cases hstop : stopCheck
              (g ++ [computeGoal (computeMisfit dms (computeResiduals dms p2)) [] p2]) tol with
          | none =>
              rw [newtonLoop_divz dms [] step tol fuel p r m g p2 hiter hstop] at hcs
              simp at hcs
              subst hcs
              simp [computeGoal_nil, hgm]
          | some b =>
              cases b with
              | true =>
                  rw [newtonLoop_last dms [] step tol fuel p r m g p2 hiter hstop] at hcs
                  simp at hcs
                  subst hcs
                  simp [computeGoal_nil, hgm]
              | false =>
                  rw [newtonLoop_cont dms [] step tol fuel p r m g p2 hiter hstop] at hcs
                  rcases List.mem_cons.mp hcs with hc | hc
                  · subst hc
                    simp [computeGoal_nil, hgm]
                  · exact ih p2 (computeResiduals dms p2)
                      (m ++ [computeMisfit dms (computeResiduals dms p2)])
                      (g ++ [computeGoal (computeMisfit dms (computeResiduals dms p2)) [] p2])
                      (by rw [computeGoal_nil, hgm]) cs hc

theorem lmRejectsAt_succ (dms : List DataModule) (regs : List Regularizer)
    (step : ℚ) (H : List (List ℚ)) (g p : List ℚ) (goal lam inc : ℚ) (k : Nat) :
    lmRejectsAt dms regs step H g p goal lam inc (k + 1)
      = lmRejectsAt dms regs step H g p goal (lam * inc) inc k := by
  unfold lmRejectsAt
  rw [show lam * inc ^ (k + 1) = lam * inc * inc ^ k from by ring]

theorem lmRejectsAt_zero (dms : List DataModule) (regs : List Regularizer)
    (step : ℚ) (H : List (List ℚ)) (g p : List ℚ) (goal lam inc : ℚ) :
    lmRejectsAt dms regs step H g p goal lam inc 0
      = match lmAttempt step H g p lam with
        | none => false
        | some q => ! lmAccept dms regs goal q := by
  unfold lmRejectsAt
  rw [show lam * inc ^ 0 = lam from by ring]

theorem lmRetry_aux (dms : List DataModule) (regs : List Regularizer)
    (step : ℚ) (H : List (List ℚ)) (g p : List ℚ) (goal inc dec : ℚ) :
    ∀ (fuel : Nat) (lam : ℚ),
      (lmRetry dms regs step H g p goal lam inc dec fuel
          = Except.error SolveErr.noDescentDirection
        ↔ ∀ k, k < fuel → lmRejectsAt dms regs step H g p goal lam inc k = true)
      ∧ (∀ p2 lam2,
          lmRetry dms regs step H g p goal lam inc dec fuel = Except.ok (p2, lam2) →
          ∃ k, k < fuel ∧ lmAttempt step H g p (lam * inc ^ k) = some p2
            ∧ lmAccept dms regs goal p2 = true
            ∧ lam2 = lam * inc ^ k * dec
            ∧ ∀ j, j < k → lmRejectsAt dms regs step H g p goal lam inc j = true) := by
  intro fuel
  induction fuel with
  | zero =>
      intro lam
      constructor
      · constructor
        · intro _ k hk
          exact absurd hk (Nat.not_lt_zero k)
        · intro _
          rfl
      · intro p2 lam2 h
        simp [lmRetry] at h
  | succ fuel ih =>
      intro lam
      cases hatt : lmAttempt step H g p lam with
      | none =>
          simp only [lmRetry, hatt]
          constructor
          · constructor
            · intro h
              exact absurd h (by simp)
            · intro hall
              have h0 := hall 0 (Nat.succ_pos fuel)
              rw [lmRejectsAt_zero, hatt] at h0
              simp at h0
          · intro p2 lam2 h
            exact absurd h (by simp)
      | some q =>
          cases hb : lmAccept dms regs goal q with
          | true =>
              simp only [lmRetry, hatt, hb, if_true]
              constructor
              · constructor
                · intro h
                  exact absurd h (by simp)
                · intro hall
                  have h0 := hall 0 (Nat.succ_pos fuel)
                  rw [lmRejectsAt_zero, hatt] at h0
                  simp [hb] at h0
              · intro p2 lam2 h
                have hpair := Except.ok.inj h
                have hq : q = p2 := congrArg Prod.fst hpair
                have hl : lam * dec = lam2 := congrArg Prod.snd hpair
                refine ⟨0, Nat.succ_pos fuel, ?_, ?_, ?_, ?_⟩
                · rw [show lam * inc ^ 0 = lam from by ring, hatt, hq]
                · rw [← hq]
                  exact hb
                · rw [← hl]
                  ring
                · intro j hj
                  exact absurd hj (Nat.not_lt_zero j)
          | false =>
              simp only [lmRetry, hatt, hb, if_false, Bool.false_eq_true]
              have h0true : lmRejectsAt dms regs step H g p goal lam inc 0 = true := by
                rw [lmRejectsAt_zero, hatt]
                simp [hb]
              obtain ⟨ihiff, ihok⟩ := ih (lam * inc)
              constructor
              · constructor
                · intro h k hk
                  cases k with
                  | zero => exact h0true
                  | succ k =>
                      rw [lmRejectsAt_succ]
                      exact ihiff.mp h k (Nat.lt_of_succ_lt_succ hk)
                · intro hall
                  apply ihiff.mpr
                  intro k hk
                  rw [← lmRejectsAt_succ]
                  exact hall (k + 1) (Nat.succ_lt_succ hk)
              · intro p2 lam2 h
                obtain ⟨k, hk, ha, hz, hl, hj⟩ := ihok p2 lam2 h
                refine ⟨k + 1, Nat.succ_lt_succ hk, ?_, hz, ?_, ?_⟩
                · rw [show lam * inc ^ (k + 1) = lam * inc * inc ^ k from by ring]
                  exact ha
                · rw [hl]
                  ring
                · intro j hj2
                  cases j with
                  | zero => exact h0true
                  | succ j =>
                      rw [lmRejectsAt_succ]
                      exact hj j (Nat.lt_of_succ_lt_succ hj2)

theorem newton_unfold (d : DataModule) (ds : List DataModule) (initial : List ℚ)
    (regs : List Regularizer) (step : ℚ) (maxit : Nat) (tol : ℚ) :
    newton (d :: ds) initial regs step maxit tol
      = newtonLoop (d :: ds) regs step tol maxit initial
          (computeResiduals (d :: ds) initial)
          [computeMisfit (d :: ds) (computeResiduals (d :: ds) initial)]
          [computeGoal (computeMisfit (d :: ds) (computeResiduals (d :: ds) initial))
            regs initial] := by
  simp [newton]

/-- C4: calling the solver with an empty list of data modules fails with the
`InvalidArgument` error (the source's `ValueError: Need at least 1 data
module. None given`); the check is the first statement of the function, so
whatever the other arguments are - any iteration budget, step size or
tolerance - the run performs no iteration and emits no changeset: the result
is exactly the bare error. -/
theorem newton_empty_dms (initial : List ℚ) (regs : List Regularizer)
    (step : ℚ) (maxit : Nat) (tol : ℚ) :
    newton [] initial regs step maxit tol = ([], some SolveErr.invalidArgument) := rfl

/-- C1: in every Newton iteration that completes, the gradient buffer starts
as the zero vector of length `nparams` (`zerosLike p`) and the Hessian buffer
as the zero `nparams x nparams` matrix, each contribution is folded in (data
modules with their residuals first, then regularizers - this is the shape of
`iterGradient` and `iterHessian`), and the parameter update `p2` is
`p + step * dp` for a vector `dp` that exactly solves the assembled linear
system `Hessian * dp = -gradient` (whose matrix is then invertible). -/
theorem newton_iteration_structure (dms : List DataModule) (regs : List Regularizer)
    (step : ℚ) (p : List ℚ) (residuals : List (List ℚ)) (p2 : List ℚ)
    (h : newtonIter dms regs step p residuals = some p2) :
    zerosLike p = List.replicate p.length 0
    ∧ zeroMat p.length = List.replicate p.length (List.replicate p.length 0)
    ∧ ∃ dp : List ℚ,
        Matrix.det (toMat (iterHessian dms regs p).length (iterHessian dms regs p)) ≠ 0
        ∧ (toMat (iterHessian dms regs p).length (iterHessian dms regs p)).mulVec
            (toVec (iterHessian dms regs p).length dp)
          = toVec (iterHessian dms regs p).length
              (smulV (-1) (iterGradient dms regs p residuals))
        ∧ p2 = addV p (smulV step dp) := by
  refine ⟨?_, rfl, ?_⟩
  · simp [zerosLike]
  · rw [newtonIter, Option.map_eq_some'] at h
    obtain ⟨dp, hdp, hmap⟩ := h
    have hc := linsys_solver_mulVec _ _ dp hdp
    exact ⟨dp, hc.1, hc.2, hmap.symm⟩

/-- Witness for C1 at the one-parameter fitting problem `dmFit5` from
`p = [0]`: the iteration yields `p2 = [5]` and the theorem produces the
solved increment. -/
theorem newton_iteration_structure_witness :
    ∃ dp : List ℚ,
      Matrix.det (toMat (iterHessian [dmFit5] [] [0]).length
          (iterHessian [dmFit5] [] [0])) ≠ 0
      ∧ (toMat (iterHessian [dmFit5] [] [0]).length
            (iterHessian [dmFit5] [] [0])).mulVec
          (toVec (iterHessian [dmFit5] [] [0]).length dp)
        = toVec (iterHessian [dmFit5] [] [0]).length
            (smulV (-1) (iterGradient [dmFit5] [] [0]
              (computeResiduals [dmFit5] [0])))
      ∧ [5] = addV [0] (smulV 1 dp) :=
  (newton_iteration_structure [dmFit5] [] 1 [0] (computeResiduals [dmFit5] [0]) [5]
    (by with_unfolding_all decide)).2.2

/-- C5: a singular Hessian makes the linear solve fail; the failure
propagates immediately - the in-progress iteration emits nothing and there is
no retry (first conjunct: the loop's answer is the bare `SingularSystem`
error); and a changeset already emitted is never rolled back - once an
iteration completes and the loop continues, that changeset stays at the head
of the output whatever the rest of the run returns, errors included (second
conjunct). -/
theorem newton_singular_solve (dms : List DataModule) (regs : List Regularizer)
    (step tol : ℚ) (fuel : Nat) (p : List ℚ) (residuals : List (List ℚ))
    (misfits goals : List ℚ) :
    (newtonIter dms regs step p residuals = none →
      newtonLoop dms regs step tol (fuel + 1) p residuals misfits goals
        = ([], some SolveErr.singularSystem))
    ∧ (∀ p2, newtonIter dms regs step p residuals = some p2 →
        stopCheck (goals ++ [computeGoal (computeMisfit dms (computeResiduals dms p2))
          regs p2]) tol = some false →
        newtonLoop dms regs step tol (fuel + 1) p residuals misfits goals
          = (⟨p2, misfits ++ [computeMisfit dms (computeResiduals dms p2)],
                goals ++ [computeGoal (computeMisfit dms (computeResiduals dms p2)) regs p2]⟩ ::
              (newtonLoop dms regs step tol fuel p2 (computeResiduals dms p2)
                (misfits ++ [computeMisfit dms (computeResiduals dms p2)])
                (goals ++ [computeGoal (computeMisfit dms (computeResiduals dms p2)) regs p2])).1,
             (newtonLoop dms regs step tol fuel p2 (computeResiduals dms p2)
                (misfits ++ [computeMisfit dms (computeResiduals dms p2)])
                (goals ++ [computeGoal (computeMisfit dms (computeResiduals dms p2)) regs p2])).2)) :=
  ⟨fun h => newtonLoop_fail dms regs step tol fuel p residuals misfits goals h,
   fun p2 h hs => newtonLoop_cont dms regs step tol fuel p residuals misfits goals p2 h hs⟩

/-- Witness for C5: with `dmSing` the very first solve is singular and the
run is the bare error; with `dmSingLater` the first iteration emits a
changeset and the second iteration's singular solve leaves it in place. -/
theorem newton_singular_solve_witness :
    newtonLoop [dmSing] [] 1 (1 / 100000) 1 [0] [[1]] [1] [1]
      = ([], some SolveErr.singularSystem)
    ∧ newtonLoop [dmSingLater] [] 1 (1 / 100000) 2 [0] [[5]] [25] [25]
      = ([⟨[5], [25, 0], [25, 0]⟩], some SolveErr.singularSystem) := by
  constructor
  · exact (newton_singular_solve [dmSing] [] 1 (1 / 100000) 0 [0] [[1]] [1] [1]).1
      (by with_unfolding_all decide)
  · have h := (newton_singular_solve [dmSingLater] [] 1 (1 / 100000) 1 [0] [[5]] [25] [25]).2
      [5] (by with_unfolding_all decide) (by with_unfolding_all decide)
    rw [h]
    with_unfolding_all decide

/-- C8: the relative-tolerance check divides by `goals[-2]` with no guard:
whenever an iteration completes with the previous goal value exactly zero,
evaluating the stopping rule performs the division by zero - in this
embedding the run ends in the `divisionByZero` outcome right after emitting
the iteration's changeset. -/
theorem newton_stop_div_zero (dms : List DataModule) (regs : List Regularizer)
    (step tol : ℚ) (fuel : Nat) (p : List ℚ) (residuals : List (List ℚ))
    (misfits goals : List ℚ) (p2 : List ℚ)
    (hstep : newtonIter dms regs step p residuals = some p2)
    (hne : goals ≠ [])
    (h0 : goals.getD (goals.length - 1) 0 = 0) :
    newtonLoop dms regs step tol (fuel + 1) p residuals misfits goals
      = ([⟨p2, misfits ++ [computeMisfit dms (computeResiduals dms p2)],
            goals ++ [computeGoal (computeMisfit dms (computeResiduals dms p2)) regs p2]⟩],
         some SolveErr.divisionByZero) := by
  apply newtonLoop_divz dms regs step tol fuel p residuals misfits goals p2 hstep
  rw [stopCheck_append goals _ tol hne, if_pos h0]

/-- Witness for C8: fitting `dmFit5` from the already perfect `p = [5]`, the
seed goal is `0`, the first iteration keeps `p = [5]`, and the stopping rule
divides by the zero previous goal. -/
theorem newton_stop_div_zero_witness :
    newtonLoop [dmFit5] [] 1 (1 / 100000) 1 [5] [[0]] [0] [0]
      = ([⟨[5], [0, 0], [0, 0]⟩], some SolveErr.divisionByZero) := by
  have h := newton_stop_div_zero [dmFit5] [] 1 (1 / 100000) 0 [5] [[0]] [0] [0] [5]
    (by with_unfolding_all decide) (by simp) (by with_unfolding_all decide)
  rw [h]
  with_unfolding_all decide

/-- C2: after emitting the changeset of an iteration, the solver terminates
exactly when the relative change of the goal is at most `tol` - with a
nonzero previous goal `g0`, if `|goal2 - g0| / |g0| <= tol` (boundary
included) the just-emitted changeset is the last one and the run ends
normally, and if the relative change strictly exceeds `tol` the loop
continues into the next iteration. -/
theorem newton_stop_rule (dms : List DataModule) (regs : List Regularizer)
    (step tol : ℚ) (fuel : Nat) (p : List ℚ) (residuals : List (List ℚ))
    (misfits goals : List ℚ) (p2 : List ℚ) (g0 goal2 : ℚ)
    (hstep : newtonIter dms regs step p residuals = some p2)
    (hgoal : goal2 = computeGoal (computeMisfit dms (computeResiduals dms p2)) regs p2)
    (hne : goals ≠ [])
    (hg0 : goals.getD (goals.length - 1) 0 = g0)
    (h0 : g0 ≠ 0) :
    (|goal2 - g0| / |g0| ≤ tol →
      newtonLoop dms regs step tol (fuel + 1) p residuals misfits goals
        = ([⟨p2, misfits ++ [computeMisfit dms (computeResiduals dms p2)],
              goals ++ [goal2]⟩], none))
    ∧ (tol < |goal2 - g0| / |g0| →
      newtonLoop dms regs step tol (fuel + 1) p residuals misfits goals
        = (⟨p2, misfits ++ [computeMisfit dms (computeResiduals dms p2)],
              goals ++ [goal2]⟩ ::
            (newtonLoop dms regs step tol fuel p2 (computeResiduals dms p2)
              (misfits ++ [computeMisfit dms (computeResiduals dms p2)])
              (goals ++ [goal2])).1,
           (newtonLoop dms regs step tol fuel p2 (computeResiduals dms p2)
              (misfits ++ [computeMisfit dms (computeResiduals dms p2)])
              (goals ++ [goal2])).2)) := by
  subst hgoal
  subst hg0
  have hsa := stopCheck_append goals
    (computeGoal (computeMisfit dms (computeResiduals dms p2)) regs p2) tol hne
  rw [if_neg h0] at hsa
  constructor
  · intro hle
    exact newtonLoop_last dms regs step tol fuel p residuals misfits goals p2 hstep
      (by rw [hsa, decide_eq_true hle])
  · intro hgt
    exact newtonLoop_cont dms regs step tol fuel p residuals misfits goals p2 hstep
      (by rw [hsa, decide_eq_false (not_le.mpr hgt)])

/-- Witness for C2 at `dmTol` from `p = [0]`, `goals = [2]`: one iteration
changes the goal by exactly the fraction `1/4`; with `tol = 1/4` the boundary
is hit and that changeset is the last, while with the stricter `tol = 1/8`
the same relative change exceeds the tolerance and a second iteration runs. -/
theorem newton_stop_rule_witness :
    newtonLoop [dmTol] [] 1 (1 / 4) 1 [0] [[2]] [2] [2]
      = ([⟨[-1 / 2], [2, 5 / 2], [2, 5 / 2]⟩], none)
    ∧ newtonLoop [dmTol] [] 1 (1 / 8) 2 [0] [[2]] [2] [2]
      = ([⟨[-1 / 2], [2, 5 / 2], [2, 5 / 2]⟩,
          ⟨[-1], [2, 5 / 2, 3], [2, 5 / 2, 3]⟩], none) := by
  constructor
  · have h := (newton_stop_rule [dmTol] [] 1 (1 / 4) 0 [0] [[2]] [2] [2]
      [-1 / 2] 2 (5 / 2)
      (by with_unfolding_all decide) (by with_unfolding_all decide) (by simp)
      (by with_unfolding_all decide) (by with_unfolding_all decide)).1
      (by with_unfolding_all decide)
    rw [h]
    with_unfolding_all decide
  · have h := (newton_stop_rule [dmTol] [] 1 (1 / 8) 1 [0] [[2]] [2] [2]
      [-1 / 2] 2 (5 / 2)
      (by with_unfolding_all decide) (by with_unfolding_all decide) (by simp)
      (by with_unfolding_all decide) (by with_unfolding_all decide)).2
      (by with_unfolding_all decide)
    rw [h]
    with_unfolding_all decide

/-- C3: the changeset of iteration `k` (counting from `0`) carries `misfits`
and `goals` histories of length exactly `k + 2` - the seed value computed
from the initial parameters plus one appended value per completed iteration
up to and including `k`; moreover the histories grow in emission order: the
next changeset's histories extend the previous changeset's as a prefix. -/
theorem newton_history_lengths (dms : List DataModule) (initial : List ℚ)
    (regs : List Regularizer) (step : ℚ) (maxit : Nat) (tol : ℚ) (k : Nat)
    (hk : k < ((newton dms initial regs step maxit tol).1).length) :
    (((newton dms initial regs step maxit tol).1).getD k ⟨[], [], []⟩).misfits.length = k + 2
    ∧ (((newton dms initial regs step maxit tol).1).getD k ⟨[], [], []⟩).goals.length = k + 2
    ∧ (k + 1 < ((newton dms initial regs step maxit tol).1).length →
        (((newton dms initial regs step maxit tol).1).getD (k + 1)
            ⟨[], [], []⟩).misfits.take (k + 2)
          = (((newton dms initial regs step maxit tol).1).getD k ⟨[], [], []⟩).misfits
        ∧ (((newton dms initial regs step maxit tol).1).getD (k + 1)
            ⟨[], [], []⟩).goals.take (k + 2)
          = (((newton dms initial regs step maxit tol).1).getD k ⟨[], [], []⟩).goals) := by
  cases dms with
  | nil =>
      rw [newton_empty_dms] at hk
      simp at hk
  | cons d ds =>
      rw [newton_unfold] at hk ⊢
      have h1 := newtonLoop_history (d :: ds) regs step tol maxit initial
        (computeResiduals (d :: ds) initial)
        [computeMisfit (d :: ds) (computeResiduals (d :: ds) initial)]
        [computeGoal (computeMisfit (d :: ds) (computeResiduals (d :: ds) initial))
          regs initial] k hk
      have hm : (((newtonLoop (d :: ds) regs step tol maxit initial
          (computeResiduals (d :: ds) initial)
          [computeMisfit (d :: ds) (computeResiduals (d :: ds) initial)]
          [computeGoal (computeMisfit (d :: ds) (computeResiduals (d :: ds) initial))
            regs initial]).1).getD k ⟨[], [], []⟩).misfits.length = k + 2 := by
        rw [h1.1]
        simp
        omega
      have hg : (((newtonLoop (d :: ds) regs step tol maxit initial
          (computeResiduals (d :: ds) initial)
          [computeMisfit (d :: ds) (computeResiduals (d :: ds) initial)]
          [computeGoal (computeMisfit (d :: ds) (computeResiduals (d :: ds) initial))
            regs initial]).1).getD k ⟨[], [], []⟩).goals.length = k + 2 := by
        rw [h1.2.1]
        simp
        omega
      refine ⟨hm, hg, ?_⟩
      intro hk2
      have h2 := newtonLoop_history_chain (d :: ds) regs step tol maxit initial
        (computeResiduals (d :: ds) initial)
        [computeMisfit (d :: ds) (computeResiduals (d :: ds) initial)]
        [computeGoal (computeMisfit (d :: ds) (computeResiduals (d :: ds) initial))
          regs initial] k hk2
      constructor
      · rw [← hm]
        exact h2.1
      · rw [← hg]
        exact h2.2

/-- Witness for C3: a one-iteration run of `newton` on `dmFit5`; its only
changeset carries histories of length `0 + 2 = 2`. -/
theorem newton_history_lengths_witness :
    0 < ((newton [dmFit5] [0] [] 1 1 (1 / 100000)).1).length
    ∧ (((newton [dmFit5] [0] [] 1 1 (1 / 100000)).1).getD 0 ⟨[], [], []⟩).misfits.length = 2
    ∧ (((newton [dmFit5] [0] [] 1 1 (1 / 100000)).1).getD 0 ⟨[], [], []⟩).goals.length = 2 := by
  refine ⟨by with_unfolding_all decide, ?_, ?_⟩
  · exact (newton_history_lengths [dmFit5] [0] [] 1 1 (1 / 100000) 0
      (by with_unfolding_all decide)).1
  · exact (newton_history_lengths [dmFit5] [0] [] 1 1 (1 / 100000) 0
      (by with_unfolding_all decide)).2.1

/-- C6 counterexample: the claim "for any non-empty data-module set it emits
at least one changeset" fails on the code: with the non-empty module list
`[dmSing]` the first iteration's Hessian is singular, the solve raises before
anything is yielded, and the run emits zero changesets (the same happens with
`maxit = 0`, where the `for i in xrange(maxit)` loop body never runs). -/
theorem newton_min_emission_cex :
    ([dmSing] : List DataModule) ≠ []
    ∧ ((newton [dmSing] [0] [] 1 100 (1 / 100000)).1).length = 0
    ∧ (newton [dmSing] [0] [] 1 100 (1 / 100000)).2 = some SolveErr.singularSystem := by
  refine ⟨by simp, ?_, ?_⟩
  · with_unfolding_all decide
  · with_unfolding_all decide

/-- C6 amended: reaching `maxit` without meeting the relative tolerance is
not an error - the only failure outcomes a run with data modules can produce
are the singular-solve and the division-by-zero ones, so a run that exhausts
its budget ends with no error after emitting its final changeset; the solver
emits at most `maxit` changesets; and it emits at least one provided the
module list is non-empty, `maxit >= 1`, and the first iteration's linear
solve succeeds. -/
theorem newton_budget (dms : List DataModule) (initial : List ℚ)
    (regs : List Regularizer) (step : ℚ) (maxit : Nat) (tol : ℚ)
    (hdm : dms ≠ [])
    (hmax : 1 ≤ maxit)
    (hsolve : newtonIter dms regs step initial (computeResiduals dms initial) ≠ none) :
    1 ≤ ((newton dms initial regs step maxit tol).1).length
    ∧ ((newton dms initial regs step maxit tol).1).length ≤ maxit
    ∧ ((newton dms initial regs step maxit tol).2 = none
        ∨ (newton dms initial regs step maxit tol).2 = some SolveErr.singularSystem
        ∨ (newton dms initial regs step maxit tol).2 = some SolveErr.divisionByZero) := by
  cases dms with
  | nil => exact absurd rfl hdm
  | cons d ds =>
      rw [newton_unfold]
      cases maxit with
      | zero => exact absurd hmax (by omega)
      | succ m =>
          refine ⟨?_, ?_, ?_⟩
          · exact newtonLoop_emits (d :: ds) regs step tol m initial
              (computeResiduals (d :: ds) initial) _ _ hsolve
          · exact newtonLoop_length_le (d :: ds) regs step tol (m + 1) initial
              (computeResiduals (d :: ds) initial) _ _
          · exact newtonLoop_err_cases (d :: ds) regs step tol (m + 1) initial
              (computeResiduals (d :: ds) initial) _ _

/-- Witness for the amended C6 at a one-iteration run on `dmFit5`. -/
theorem newton_budget_witness :
    1 ≤ ((newton [dmFit5] [0] [] 1 1 (1 / 100000)).1).length
    ∧ ((newton [dmFit5] [0] [] 1 1 (1 / 100000)).1).length ≤ 1
    ∧ ((newton [dmFit5] [0] [] 1 1 (1 / 100000)).2 = none
        ∨ (newton [dmFit5] [0] [] 1 1 (1 / 100000)).2 = some SolveErr.singularSystem
        ∨ (newton [dmFit5] [0] [] 1 1 (1 / 100000)).2 = some SolveErr.divisionByZero) :=
  newton_budget [dmFit5] [0] [] 1 1 (1 / 100000) (by simp) (le_refl 1)
    (by with_unfolding_all decide)

/-- C7 counterexample: the parameter vector is not handed by value into the
emitted changesets.  In the source `p = initial` aliases the caller's array,
`p += ...` mutates it in place, and every yielded dict stores that same
array; `newtonAlias` makes the shared buffer explicit.  In the concrete
two-iteration run below, changeset 0 was emitted with estimate `[5/2]`, yet
after the run the shared buffer - what changeset 0's stored estimate and the
caller's `initial` array then contain - reads `[15/4]`, which differs both
from the at-emission value `[5/2]` and from the original initial vector
`[0]`. -/
theorem newton_alias_cex :
    ((newton [dmFit5] [0] [] (1 / 2) 2 (1 / 100000)).1.getD 0 ⟨[], [], []⟩).estimate
      = [5 / 2]
    ∧ (newtonAlias [dmFit5] [0] [] (1 / 2) 2 (1 / 100000)).1 = [15 / 4]
    ∧ ([15 / 4] : List ℚ) ≠ [5 / 2]
    ∧ ([15 / 4] : List ℚ) ≠ [0] := by
  refine ⟨?_, ?_, ?_, ?_⟩ <;> with_unfolding_all decide

/-- C7 amended: every emitted changeset's `'estimate'` entry and the caller's
`initial` array alias the solver's single parameter buffer, which is updated
in place; once the run ends they all read as the buffer's final contents -
the estimate of the last emitted changeset (or the unchanged initial vector
when nothing was emitted) - while changeset count and failure outcome agree
with the by-value model. -/
theorem newton_alias_spec (dms : List DataModule) (initial : List ℚ)
    (regs : List Regularizer) (step : ℚ) (maxit : Nat) (tol : ℚ) :
    newtonAlias dms initial regs step maxit tol
      = ((((newton dms initial regs step maxit tol).1).map ChangeSet.estimate).getLastD initial,
         ((newton dms initial regs step maxit tol).1).length,
         (newton dms initial regs step maxit tol).2) := by
  by_cases h : dms.length = 0
  · simp [newton, newtonAlias, h]
  · simp only [newton, newtonAlias, if_neg h]
    exact newtonAliasLoop_spec dms regs step tol maxit initial _ _ _

/-- C9 (spec-modelled, `lev_marq` is not among the provided sources): the
damped variant regularizes the Hessian by adding `lam * diag(Hessian)` before
solving (first conjunct, the entries of `dampedHessian`); its retry loop
fails with `NoDescentDirection` exactly when every damping level within the
budget yields a rejected step (second conjunct); and a successful step is the
first accepted damped attempt, returned with the damping decreased by the
factor `dec` after the increases by `inc` accumulated over the preceding
rejections (third conjunct). -/
theorem lev_marq_damping_spec (dms : List DataModule) (regs : List Regularizer)
    (step : ℚ) (H : List (List ℚ)) (g p : List ℚ) (goal lam inc dec : ℚ)
    (fuel : Nat) :
    (∀ i j : Nat, i < H.length → j < (H.getD i []).length →
      ((dampedHessian H lam).getD i []).getD j 0
        = if j = i then (H.getD i []).getD j 0 + lam * (H.getD i []).getD j 0
          else (H.getD i []).getD j 0)
    ∧ (lmRetry dms regs step H g p goal lam inc dec fuel
          = Except.error SolveErr.noDescentDirection
        ↔ ∀ k, k < fuel → lmRejectsAt dms regs step H g p goal lam inc k = true)
    ∧ (∀ p2 lam2,
        lmRetry dms regs step H g p goal lam inc dec fuel = Except.ok (p2, lam2) →
        ∃ k, k < fuel ∧ lmAttempt step H g p (lam * inc ^ k) = some p2
          ∧ lmAccept dms regs goal p2 = true
          ∧ lam2 = lam * inc ^ k * dec
          ∧ ∀ j, j < k → lmRejectsAt dms regs step H g p goal lam inc j = true) := by
  refine ⟨?_, (lmRetry_aux dms regs step H g p goal inc dec fuel lam).1,
    (lmRetry_aux dms regs step H g p goal inc dec fuel lam).2⟩
  intro i j hi hj
  rw [dampedHessian, getD_map_range_list H.length i _ hi, getD_map_range _ j _ hj]

/-- Witness for C9 on the goal landscape `dmW`: from `p = [0]` with
`goal = 25`, the damped trial at `lam = 1` lands on goal value `30` and is
rejected, the retried trial at `lam = 3` lands on `10` and is accepted, and
the returned damping is `3 * (1/2) = 3/2`. -/
theorem lev_marq_damping_witness :
    ∃ k, k < 3 ∧ lmAttempt 1 [[2]] [-10] [0] (1 * 3 ^ k) = some [5 / 4]
      ∧ lmAccept [dmW] [] 25 [5 / 4] = true
      ∧ (3 / 2 : ℚ) = 1 * 3 ^ k * (1 / 2)
      ∧ ∀ j, j < k → lmRejectsAt [dmW] [] 1 [[2]] [-10] [0] 25 1 3 j = true :=
  (lev_marq_damping_spec [dmW] [] 1 [[2]] [-10] [0] 25 1 3 (1 / 2) 3).2.2 [5 / 4] (3 / 2)
    (by with_unfolding_all rfl)

/-- C10: with no regularizers every penalty sum is empty, so the goal value
computed at the seed and after every iteration equals the misfit value; hence
every changeset emitted by a `newton` run with `regs = []` carries `goals`
elementwise equal to `misfits`. -/
theorem newton_no_regs_goals (dms : List DataModule) (initial : List ℚ)
    (step : ℚ) (maxit : Nat) (tol : ℚ) :
    ∀ cs ∈ (newton dms initial [] step maxit tol).1, cs.goals = cs.misfits := by
  intro cs hcs
  by_cases h : dms.length = 0
  · simp [newton, h] at hcs
  · simp only [newton, if_neg h] at hcs
    exact newtonLoop_no_regs dms step tol maxit initial _ _ _
      (by rw [computeGoal_nil]) cs hcs

/-- Witness for C10: the changeset of a one-iteration run on `dmFit5` has
equal `goals` and `misfits` histories. -/
theorem newton_no_regs_goals_witness :
    (⟨[5], [25, 0], [25, 0]⟩ : ChangeSet) ∈ (newton [dmFit5] [0] [] 1 1 (1 / 100000)).1
    ∧ (⟨[5], [25, 0], [25, 0]⟩ : ChangeSet).goals
        = (⟨[5], [25, 0], [25, 0]⟩ : ChangeSet).misfits := by
  constructor
  · with_unfolding_all decide
  · exact newton_no_regs_goals [dmFit5] [0] 1 1 (1 / 100000) ⟨[5], [25, 0], [25, 0]⟩
      (by with_unfolding_all decide)
